import Mathlib

/-!
Verification of the market-map server against its specification.

The development shallowly embeds the orchestration logic of `src/server.js`
together with the helpers in `src/lib/username.js` and `src/lib/db.js`.
JavaScript strings are modelled as `List Char` (abbreviated `Str`); the
SQLite session table is modelled as a list of `SessionRow` records; external
collaborators (the Gemini generation calls, the URL liveness probes and the
source generator/repairer from `src/lib/agent.js`, which is not part of the
provided sources) are modelled as oracle inputs: the per-turn orchestration
is a pure function of the session row, the incoming message and the oracle.
-/

abbrev Str : Type := List Char

/-- The whitespace characters matched by JavaScript's `\s` / `trim` that can
occur in this system's inputs: space, tab, line feed, carriage return,
vertical tab, form feed. -/
def isWsChar (c : Char) : Bool :=
  c = ' ' || c = '\t' || c = '\n' || c = '\r' || c = Char.ofNat 11 || c = Char.ofNat 12

/-- `String.prototype.trim`: strip leading and trailing whitespace. -/
def trimChars (s : Str) : Str :=
  ((s.dropWhile isWsChar).reverse.dropWhile isWsChar).reverse

/-- `String.prototype.toLowerCase` (all characters appearing here are ASCII). -/
def lowerChars (s : Str) : Str := s.map Char.toLower

/-- A word character in the sense of the regex metacharacter `\b`:
`[A-Za-z0-9_]`. -/
def isWordChar (c : Char) : Bool := c.isAlphanum || c = '_'

/-- The alternation vocabulary of the `wantsResult` regex in
src/lib/username.js. -/
def resultVocab : List Str :=
  ["yes".data, "yep".data, "yeah".data, "ok".data, "okay".data, "go ahead".data,
   "proceed".data, "continue".data, "do it".data, "looks good".data,
   "sounds good".data, "ready".data, "generate".data, "result".data,
   "final".data, "ship it".data]

/-- The word `w` occurs in `s` at position `i`. -/
def subAt (s w : Str) (i : Nat) : Bool :=
  decide ((s.drop i).take w.length = w)

/-- Word-boundary condition of `\b...\b` around an occurrence at position `i`
of length `len` (every vocabulary word starts and ends with a word
character, so the boundary holds exactly when the neighbours are absent or
non-word characters). -/
def boundaryAt (s : Str) (i len : Nat) : Bool :=
  (decide (i = 0) || !(isWordChar (s.getD (i - 1) ' '))) &&
  (decide (s.length ≤ i + len) || !(isWordChar (s.getD (i + len) ' ')))

def wordMatchAt (s w : Str) (i : Nat) : Bool :=
  subAt s w i && boundaryAt s i w.length

def hasWordMatch (s w : Str) : Bool :=
  (List.range (s.length + 1)).any (fun i => wordMatchAt s w i)

/-- src/lib/username.js `wantsResult`: test the affirmation regex
`\b(yes|yep|...|ship it)\b` against the lowercased message. -/
def wantsResult (message : Str) : Bool :=
  resultVocab.any (fun w => hasWordMatch (lowerChars message) w)

/-- Number of fields produced by `trimmed.split(/\s+/)` on a trimmed,
non-empty string: the number of maximal whitespace-free runs.  The flag
records whether the previous character belonged to a run. -/
def countWordsAux : Str → Bool → Nat
  | [], _ => 0
  | c :: rest, inWord =>
    if isWsChar c then countWordsAux rest false
    else (if inWord then 0 else 1) + countWordsAux rest true

/-- src/lib/username.js `isConfirmation`: non-blank, matches the affirmation
vocabulary, and has at most 4 whitespace-separated words. -/
def isConfirmation (message : Str) : Bool :=
  if trimChars message = [] then false
  else wantsResult (trimChars message) && decide (countWordsAux (trimChars message) false ≤ 4)

inductive Role
  | user
  | assistant
  deriving DecidableEq, Repr

structure ChatMsg where
  role : Role
  content : Str
  deriving DecidableEq, Repr

/-- The backward walk of src/lib/username.js `inferCategory`: the content of
the latest history entry whose role is user and whose content is not itself
a confirmation. -/
def lastNonConfirmUser : List ChatMsg → Option Str
  | [] => none
  | e :: rest =>
    match lastNonConfirmUser rest with
    | some c => some c
    | none =>
      if e.role = Role.user ∧ isConfirmation e.content = false then some e.content
      else none

/-- src/lib/username.js `inferCategory`. -/
def inferCategory (message : Str) (chatHistory : List ChatMsg) : Str :=
  if isConfirmation message = false then message
  else
    match lastNonConfirmUser chatHistory with
    | some c => c
    | none => message

/-- Specification-side reading of the backward walk: the last matching entry
of the history, found by searching the reversed history. -/
def recentNonConfirmUser (chatHistory : List ChatMsg) : Option ChatMsg :=
  chatHistory.reverse.find?
    (fun e => decide (e.role = Role.user) && !isConfirmation e.content)

/-- src/lib/username.js `normalizeBaseName` keeps exactly `[a-z0-9]`. -/
def isLowerAlnum (c : Char) : Bool :=
  (decide ('a' ≤ c) && decide (c ≤ 'z')) || (decide ('0' ≤ c) && decide (c ≤ '9'))

/-- src/lib/username.js `normalizeBaseName`: trim, lowercase, delete
whitespace, delete every character outside `[a-z0-9]`. -/
def normalizeBaseName (name : Str) : Str :=
  ((lowerChars (trimChars name)).filter (fun c => !isWsChar c)).filter isLowerAlnum

/-- Decimal digit characters of `n` for `100 ≤ n ≤ 999`, which is what
`Number.prototype.toString` renders for such `n`. -/
def threeDigitChars (n : Nat) : Str :=
  [Nat.digitChar (n / 100 % 10), Nat.digitChar (n / 10 % 10), Nat.digitChar (n % 10)]

/-- src/lib/username.js `randomDigits`: `Math.floor(100 + Math.random()*900)`
is a number in `[100, 999]`; the random draw is modelled by `r`. -/
def randomDigits (r : Nat) : Str := threeDigitChars (100 + r % 900)

/-- The retry loop of `generateUniqueUsername`, paired with the number of
`lookupFn` calls it makes; `i` is the attempt index (feeding the modelled
random source `rng`), the second argument the remaining attempts. -/
def genAttempts (normalized : Str) (lookupFn : Str → Bool) (rng : Nat → Nat) :
    Nat → Nat → Option Str × Nat
  | _, 0 => (none, 0)
  | i, Nat.succ fuel =>
    let candidate := normalized ++ randomDigits (rng i)
    if lookupFn candidate then
      let rest := genAttempts normalized lookupFn rng (i + 1) fuel
      (rest.1, rest.2 + 1)
    else (some candidate, 1)

/-- src/lib/username.js `generateUniqueUsername`, paired with the number of
collision-lookup calls performed. -/
def generateUniqueUsernameC (base : Str) (lookupFn : Str → Bool) (rng : Nat → Nat) :
    Option Str × Nat :=
  if normalizeBaseName base = [] then (none, 0)
  else genAttempts (normalizeBaseName base) lookupFn rng 0 8

/-- src/lib/username.js `generateUniqueUsername` (the returned value). -/
def generateUniqueUsername (base : Str) (lookupFn : Str → Bool) (rng : Nat → Nat) :
    Option Str :=
  (generateUniqueUsernameC base lookupFn rng).1

example : isConfirmation "yes".data = true := by decide
example : isConfirmation "CRM software".data = false := by decide
example : isConfirmation "yes please proceed right now".data = false := by decide
example : normalizeBaseName " Atlas !! ".data = "atlas".data := by decide
example : normalizeBaseName "  ".data = [] := by decide
example :
    inferCategory "yes".data
      [⟨Role.user, "CRM software".data⟩, ⟨Role.assistant, "Plan details".data⟩] =
    "CRM software".data := by decide
example :
    generateUniqueUsername "Atlas".data (fun _ => false) (fun n => n) =
    some "atlas100".data := by decide
example :
    generateUniqueUsername "Atlas".data (fun _ => true) (fun n => n) = none := by decide
example : generateUniqueUsernameC "!!!".data (fun _ => true) (fun n => n) = (none, 0) := by
  decide


theorem lastNonConfirmUser_eq (h : List ChatMsg) :
    lastNonConfirmUser h = (recentNonConfirmUser h).map ChatMsg.content := by
  induction h with
  | nil => rfl
  | cons e rest ih =>
    unfold lastNonConfirmUser recentNonConfirmUser
    unfold recentNonConfirmUser at ih
    simp only [List.reverse_cons, List.find?_append]
    cases hfind :
        rest.reverse.find?
          (fun e => decide (e.role = Role.user) && !isConfirmation e.content) with
    | some x =>
      rw [hfind] at ih
      rw [ih]
      simp [Option.or]
    | none =>
      rw [hfind] at ih
      simp only [Option.map_none'] at ih
      rw [ih]
      by_cases hr : e.role = Role.user
      · cases hic : isConfirmation e.content with
        | false => simp [hr, hic, List.find?]
        | true => simp [hr, hic, List.find?]
      · simp [hr, List.find?]

/-- C8: `inferCategory` returns the message itself for a non-confirmation
message; for a confirmation message (affirmation vocabulary, at most 4
words) it returns the content of the most recent user entry of the history
that is not itself a confirmation (falling back to the message when none
exists); in particular the round trip
`inferCategory "yes" [user "CRM software", assistant "Plan details"]`
yields `"CRM software"`. -/
theorem inferCategory_spec (message : Str) (chatHistory : List ChatMsg) :
    (isConfirmation message = false → inferCategory message chatHistory = message) ∧
    (isConfirmation message = true →
      inferCategory message chatHistory =
        ((recentNonConfirmUser chatHistory).map ChatMsg.content).getD message) ∧
    inferCategory "yes".data
      [⟨Role.user, "CRM software".data⟩, ⟨Role.assistant, "Plan details".data⟩] =
      "CRM software".data := by
  refine ⟨fun hnc => by simp [inferCategory, hnc], fun hc => ?_, by decide⟩
  unfold inferCategory
  rw [lastNonConfirmUser_eq, hc]
  cases (recentNonConfirmUser chatHistory).map ChatMsg.content with
  | none => simp
  | some c => simp

theorem inferCategory_spec_witness :
    isConfirmation "ok".data = true ∧
    inferCategory "ok".data [⟨Role.user, "CRM software".data⟩] = "CRM software".data := by
  refine ⟨by decide, ?_⟩
  have h := (inferCategory_spec "ok".data [⟨Role.user, "CRM software".data⟩]).2.1 (by decide)
  rw [h]
  decide

theorem randomDigits_length (r : Nat) : (randomDigits r).length = 3 := rfl

theorem randomDigits_digits (r : Nat) : ∀ ch ∈ randomDigits r, ch.isDigit = true := by
  have h10 : ∀ m, m < 10 → (Nat.digitChar m).isDigit = true := by decide
  intro ch hch
  simp only [randomDigits, threeDigitChars, List.mem_cons, List.mem_singleton,
    List.not_mem_nil, or_false] at hch
  rcases hch with h | h | h <;> subst h <;> exact h10 _ (Nat.mod_lt _ (by norm_num))

theorem genAttempts_spec (normalized : Str) (lookupFn : Str → Bool) (rng : Nat → Nat) :
    ∀ fuel i,
      (∀ c, (genAttempts normalized lookupFn rng i fuel).1 = some c →
        ∃ k, k < fuel ∧ c = normalized ++ randomDigits (rng (i + k)) ∧
          lookupFn c = false ∧
          ∀ j, j < k → lookupFn (normalized ++ randomDigits (rng (i + j))) = true) ∧
      ((∀ k, k < fuel → lookupFn (normalized ++ randomDigits (rng (i + k))) = true) →
        (genAttempts normalized lookupFn rng i fuel).1 = none) := by
  intro fuel
  induction fuel with
  | zero => intro i; exact ⟨fun c hc => by simp [genAttempts] at hc, fun _ => rfl⟩
  | succ fuel ih =>
    intro i
    by_cases hl : lookupFn (normalized ++ randomDigits (rng i)) = true
    · constructor
      · intro c hc
        simp only [genAttempts, hl, if_true] at hc
        obtain ⟨k, hk, hc1, hc2, hc3⟩ := (ih (i + 1)).1 c hc
        refine ⟨k + 1, by omega, ?_, hc2, ?_⟩
        · have : i + (k + 1) = i + 1 + k := by omega
          rw [this]; exact hc1
        · intro j hj
          cases j with
          | zero => simpa using hl
          | succ j' =>
            have : i + (j' + 1) = i + 1 + j' := by omega
            rw [this]
            exact hc3 j' (by omega)
      · intro hall
        simp only [genAttempts, hl, if_true]
        exact (ih (i + 1)).2 fun k hk => by
          have : i + 1 + k = i + (k + 1) := by omega
          rw [this]
          exact hall (k + 1) (by omega)
    · have hl' : lookupFn (normalized ++ randomDigits (rng i)) = false :=
        Bool.not_eq_true _ ▸ eq_false_of_ne_true hl
      constructor
      · intro c hc
        simp only [genAttempts, hl', Bool.false_eq_true, if_false,
          Option.some.injEq] at hc
        refine ⟨0, by omega, ?_, ?_, fun j hj => absurd hj (by omega)⟩
        · simpa using hc.symm
        · rw [← hc]; exact hl'
      · intro hall
        exact absurd (by simpa using hall 0 (by omega)) (by simp [hl'])

/-- C9: for a base whose normalization is non-empty, `generateUniqueUsername`
returns either the normalized base followed by exactly three digit
characters and for which the collision lookup reports no existing user
(after retrying on each earlier colliding candidate), or `none` after the
bounded 8 attempts when every tried candidate collides; for a base whose
normalization is empty it returns `none` with zero lookup calls. -/
theorem generateUniqueUsername_spec (base : Str) (lookupFn : Str → Bool) (rng : Nat → Nat) :
    (normalizeBaseName base = [] → generateUniqueUsernameC base lookupFn rng = (none, 0)) ∧
    (normalizeBaseName base ≠ [] →
      (∀ c, generateUniqueUsername base lookupFn rng = some c →
        ∃ d, c = normalizeBaseName base ++ d ∧ d.length = 3 ∧
          (∀ ch ∈ d, ch.isDigit = true) ∧ lookupFn c = false ∧
          ∃ k, k < 8 ∧ d = randomDigits (rng k) ∧
            ∀ j, j < k → lookupFn (normalizeBaseName base ++ randomDigits (rng j)) = true) ∧
      ((∀ k, k < 8 → lookupFn (normalizeBaseName base ++ randomDigits (rng k)) = true) →
        generateUniqueUsername base lookupFn rng = none)) := by
  constructor
  · intro hempty
    simp [generateUniqueUsernameC, hempty]
  · intro hne
    constructor
    · intro c hc
      unfold generateUniqueUsername generateUniqueUsernameC at hc
      rw [if_neg hne] at hc
      obtain ⟨k, hk, hc1, hc2, hc3⟩ :=
        (genAttempts_spec (normalizeBaseName base) lookupFn rng 8 0).1 c hc
      refine ⟨randomDigits (rng k), by simpa using hc1, randomDigits_length _,
        randomDigits_digits _, hc2, k, hk, rfl, fun j hj => by simpa using hc3 j hj⟩
    · intro hall
      unfold generateUniqueUsername generateUniqueUsernameC
      rw [if_neg hne]
      exact (genAttempts_spec (normalizeBaseName base) lookupFn rng 8 0).2
        fun k hk => by simpa using hall k hk

theorem generateUniqueUsername_spec_witness :
    generateUniqueUsername "Atlas".data (fun _ => true) (fun n => n) = none := by
  refine ((generateUniqueUsername_spec "Atlas".data (fun _ => true) (fun n => n)).2
    (by decide)).2 ?_
  intro k _
  rfl

inductive SStatus
  | active
  | complete
  deriving DecidableEq, Repr

inductive Phase
  | plan
  | result
  deriving DecidableEq, Repr

inductive PlanStatus
  | awaitingClarification
  | executed
  deriving DecidableEq, Repr

/-- One row of the `sessions` table (src/lib/db.js), restricted to the fields
the orchestration logic reads or writes.  `plan_text = none` models a SQL
NULL; `chat_history` and `plan_questions` model the JSON-encoded columns by
their decoded values. -/
structure SessionRow where
  id : Nat
  user_id : Nat
  status : SStatus
  phase : Phase
  turn_count : Nat
  chat_history : List ChatMsg
  plan_text : Option Str
  plan_questions : Option (List Str)
  plan_status : Option PlanStatus
  created_at : Nat
  deriving DecidableEq, Repr

def sessionsOfUser (dbRows : List SessionRow) (userId : Nat) : List SessionRow :=
  dbRows.filter (fun r => decide (r.user_id = userId))

/-- Insertion step of the deterministic model of `ORDER BY created_at DESC`
(ties keep their relative order; SQLite leaves tie order unspecified, and no
claim depends on it). -/
def insertByCreatedDesc (r : SessionRow) : List SessionRow → List SessionRow
  | [] => [r]
  | x :: xs =>
    if x.created_at < r.created_at then r :: x :: xs
    else x :: insertByCreatedDesc r xs

def sortByCreatedDesc : List SessionRow → List SessionRow
  | [] => []
  | x :: xs => insertByCreatedDesc x (sortByCreatedDesc xs)

/-- The ids selected by the first query of src/lib/db.js `pruneSessions`:
`SELECT id FROM sessions WHERE user_id = ? ORDER BY created_at DESC LIMIT ?`. -/
def pruneIds (dbRows : List SessionRow) (userId keep : Nat) : List Nat :=
  ((sortByCreatedDesc (sessionsOfUser dbRows userId)).take keep).map (fun r => r.id)

/-- src/lib/db.js `pruneSessions`: select the ids of the user's newest `keep`
sessions, return unchanged if that set is empty, otherwise delete the
sessions of that user whose id is not among them
(`DELETE FROM sessions WHERE user_id = ? AND id NOT IN (...)`). -/
def pruneSessions (dbRows : List SessionRow) (userId keep : Nat) : List SessionRow :=
  if pruneIds dbRows userId keep = [] then dbRows
  else
    dbRows.filter (fun r =>
      !(decide (r.user_id = userId) && !((pruneIds dbRows userId keep).contains r.id)))

theorem mem_insertByCreatedDesc (r a : SessionRow) (l : List SessionRow) :
    a ∈ insertByCreatedDesc r l ↔ a = r ∨ a ∈ l := by
  induction l with
  | nil => simp [insertByCreatedDesc]
  | cons x xs ih =>
    by_cases hx : x.created_at < r.created_at
    · simp [insertByCreatedDesc, hx]
    · simp [insertByCreatedDesc, hx, ih]
      tauto

theorem mem_sortByCreatedDesc (a : SessionRow) (l : List SessionRow) :
    a ∈ sortByCreatedDesc l ↔ a ∈ l := by
  induction l with
  | nil => simp [sortByCreatedDesc]
  | cons x xs ih => simp [sortByCreatedDesc, mem_insertByCreatedDesc, ih]

theorem length_insertByCreatedDesc (r : SessionRow) (l : List SessionRow) :
    (insertByCreatedDesc r l).length = l.length + 1 := by
  induction l with
  | nil => rfl
  | cons x xs ih =>
    by_cases hx : x.created_at < r.created_at
    · simp [insertByCreatedDesc, hx]
    · simp [insertByCreatedDesc, hx, ih]

theorem length_sortByCreatedDesc (l : List SessionRow) :
    (sortByCreatedDesc l).length = l.length := by
  induction l with
  | nil => rfl
  | cons x xs ih => simp [sortByCreatedDesc, length_insertByCreatedDesc, ih]

theorem filter_and_of_imp {α : Type} (p q : α → Bool) :
    ∀ l : List α, (∀ a ∈ l, q a = true → p a = true) →
      l.filter (fun a => p a && q a) = l.filter q := by
  intro l
  induction l with
  | nil => intro _; rfl
  | cons x xs ih =>
    intro h
    by_cases hq : q x = true
    · have hp := h x (by simp) hq
      simp [List.filter, hp, hq, ih fun a ha => h a (by simp [ha])]
    · have hq' : q x = false := eq_false_of_ne_true hq
      simp [List.filter, hq', Bool.and_false,
        ih fun a ha => h a (by simp [ha])]


theorem contains_eq_true_iff (l : List Nat) (a : Nat) : l.contains a = true ↔ a ∈ l := by
  simp [List.contains, List.elem_iff]

theorem filter_and_keep_left {α : Type} (p q : α → Bool) :
    ∀ l : List α, (∀ a ∈ l, p a = true → q a = true) →
      l.filter (fun a => p a && q a) = l.filter p := by
  intro l
  induction l with
  | nil => intro _; rfl
  | cons x xs ih =>
    intro h
    by_cases hp : p x = true
    · have hq := h x (by simp) hp
      simp [List.filter, hp, hq, ih fun a ha => h a (by simp [ha])]
    · have hp' : p x = false := eq_false_of_ne_true hp
      simp [List.filter, hp', ih fun a ha => h a (by simp [ha])]

theorem pruneSessions_eq_filter (dbRows : List SessionRow) (userId keep : Nat)
    (h : pruneIds dbRows userId keep ≠ []) :
    pruneSessions dbRows userId keep =
      dbRows.filter (fun r =>
        !(decide (r.user_id = userId) &&
          !((pruneIds dbRows userId keep).contains r.id))) := by
  unfold pruneSessions
  rw [if_neg h]

theorem mem_take_of_id_mem_pruneIds (dbRows : List SessionRow) (userId keep : Nat)
    (hnodup : (dbRows.map (fun r => r.id)).Nodup) (r : SessionRow) (hr : r ∈ dbRows)
    (hid : r.id ∈ pruneIds dbRows userId keep) :
    r ∈ (sortByCreatedDesc (sessionsOfUser dbRows userId)).take keep := by
  obtain ⟨x, hxtake, hxid⟩ := List.mem_map.mp hid
  have hx : x ∈ dbRows := by
    have := List.mem_of_mem_take hxtake
    rw [mem_sortByCreatedDesc] at this
    exact List.mem_of_mem_filter this
  have : x = r := List.inj_on_of_nodup_map hnodup hx hr hxid
  rw [← this]
  exact hxtake

/-- C10: `pruneSessions` touches only the given user's rows (rows of every
other user survive, in order), never invents rows, never deletes one of the
user's `keep` newest rows, and deletes nothing when the user has at most
`keep` rows. -/
theorem pruneSessions_frame (dbRows : List SessionRow) (userId keep : Nat) :
    ((pruneSessions dbRows userId keep).filter (fun r => !(decide (r.user_id = userId))) =
      dbRows.filter (fun r => !(decide (r.user_id = userId)))) ∧
    (∀ r ∈ pruneSessions dbRows userId keep, r ∈ dbRows) ∧
    (∀ r ∈ (sortByCreatedDesc (sessionsOfUser dbRows userId)).take keep,
      r ∈ pruneSessions dbRows userId keep) ∧
    ((sessionsOfUser dbRows userId).length ≤ keep →
      pruneSessions dbRows userId keep = dbRows) := by
  by_cases hids : pruneIds dbRows userId keep = []
  · have hpr : pruneSessions dbRows userId keep = dbRows := by
      unfold pruneSessions
      rw [if_pos hids]
    refine ⟨by rw [hpr], fun r hr => hpr ▸ hr, fun r hr => ?_, fun _ => hpr⟩
    rw [hpr]
    have := List.mem_of_mem_take hr
    rw [mem_sortByCreatedDesc] at this
    exact List.mem_of_mem_filter this
  · have hpr := pruneSessions_eq_filter dbRows userId keep hids
    refine ⟨?_, ?_, ?_, ?_⟩
    · rw [hpr, List.filter_filter]
      refine filter_and_keep_left _ _ dbRows fun a _ ha => ?_
      cases hdec : decide (a.user_id = userId) with
      | false => rfl
      | true => rw [hdec] at ha; exact absurd ha (by simp)
    · intro r hr
      rw [hpr] at hr
      exact List.mem_of_mem_filter hr
    · intro r hr
      rw [hpr]
      have hmem : r ∈ dbRows := by
        have := List.mem_of_mem_take hr
        rw [mem_sortByCreatedDesc] at this
        exact List.mem_of_mem_filter this
      have hid : (pruneIds dbRows userId keep).contains r.id = true := by
        rw [contains_eq_true_iff]
        exact List.mem_map_of_mem _ hr
      rw [List.mem_filter]
      refine ⟨hmem, ?_⟩
      rw [hid]
      cases hdec : decide (r.user_id = userId) <;> rfl
    · intro hlen
      rw [hpr, List.filter_eq_self]
      intro a ha
      by_cases hu : a.user_id = userId
      · have hmem : a ∈ sortByCreatedDesc (sessionsOfUser dbRows userId) := by
          rw [mem_sortByCreatedDesc, sessionsOfUser, List.mem_filter]
          exact ⟨ha, by simp [hu]⟩
        have htake : (sortByCreatedDesc (sessionsOfUser dbRows userId)).take keep =
            sortByCreatedDesc (sessionsOfUser dbRows userId) :=
          List.take_of_length_le (by rw [length_sortByCreatedDesc]; exact hlen)
        have hid : (pruneIds dbRows userId keep).contains a.id = true := by
          rw [contains_eq_true_iff]
          unfold pruneIds
          rw [htake]
          exact List.mem_map_of_mem _ hmem
        rw [hid]
        cases hdec : decide (a.user_id = userId) <;> rfl
      · have : decide (a.user_id = userId) = false := by simp [hu]
        rw [this]
        rfl

def rowA : SessionRow :=
  { id := 1, user_id := 1, status := SStatus.complete, phase := Phase.result,
    turn_count := 1, chat_history := [], plan_text := none, plan_questions := none,
    plan_status := none, created_at := 10 }

def rowB : SessionRow :=
  { id := 2, user_id := 1, status := SStatus.complete, phase := Phase.result,
    turn_count := 1, chat_history := [], plan_text := none, plan_questions := none,
    plan_status := none, created_at := 20 }

def rowC : SessionRow :=
  { id := 3, user_id := 2, status := SStatus.active, phase := Phase.plan,
    turn_count := 0, chat_history := [], plan_text := none, plan_questions := none,
    plan_status := none, created_at := 15 }

theorem pruneSessions_frame_witness :
    pruneSessions [rowA, rowB, rowC] 1 5 = [rowA, rowB, rowC] :=
  (pruneSessions_frame [rowA, rowB, rowC] 1 5).2.2.2 (by decide)

theorem pruneSessions_mem_iff (dbRows : List SessionRow) (userId keep : Nat)
    (hkeep : 0 < keep) (hnodup : (dbRows.map (fun r => r.id)).Nodup) (r : SessionRow) :
    r ∈ pruneSessions dbRows userId keep ↔
      r ∈ dbRows ∧ (r.user_id ≠ userId ∨
        r ∈ (sortByCreatedDesc (sessionsOfUser dbRows userId)).take keep) := by
  by_cases hu : sessionsOfUser dbRows userId = []
  · have hpr : pruneSessions dbRows userId keep = dbRows := by
      unfold pruneSessions
      rw [if_pos (by unfold pruneIds; rw [hu]; simp [sortByCreatedDesc])]
    rw [hpr]
    constructor
    · intro hr
      refine ⟨hr, Or.inl fun heq => ?_⟩
      have : r ∈ sessionsOfUser dbRows userId := by
        rw [sessionsOfUser, List.mem_filter]
        exact ⟨hr, by simp [heq]⟩
      rw [hu] at this
      exact absurd this (List.not_mem_nil r)
    · exact fun h => h.1
  · have hlpos : 0 < (sortByCreatedDesc (sessionsOfUser dbRows userId)).length := by
      rw [length_sortByCreatedDesc]
      exact List.length_pos.mpr hu
    have htne : (sortByCreatedDesc (sessionsOfUser dbRows userId)).take keep ≠ [] := by
      intro h
      have hlen := congrArg List.length h
      rw [List.length_take] at hlen
      simp only [List.length_nil] at hlen
      omega
    have hids : pruneIds dbRows userId keep ≠ [] := by
      unfold pruneIds
      simpa using htne
    rw [pruneSessions_eq_filter dbRows userId keep hids, List.mem_filter]
    constructor
    · rintro ⟨hr, hpred⟩
      refine ⟨hr, ?_⟩
      by_cases huid : r.user_id = userId
      · refine Or.inr ?_
        refine mem_take_of_id_mem_pruneIds dbRows userId keep hnodup r hr ?_
        rw [← contains_eq_true_iff]
        by_contra hcon
        have hcf : (pruneIds dbRows userId keep).contains r.id = false :=
          eq_false_of_ne_true hcon
        rw [hcf] at hpred
        have : decide (r.user_id = userId) = true := by simp [huid]
        rw [this] at hpred
        exact absurd hpred (by simp)
      · exact Or.inl huid
    · rintro ⟨hr, hcase⟩
      refine ⟨hr, ?_⟩
      rcases hcase with huid | htake
      · have : decide (r.user_id = userId) = false := by simp [huid]
        rw [this]
        rfl
      · have hid : (pruneIds dbRows userId keep).contains r.id = true := by
          rw [contains_eq_true_iff]
          exact List.mem_map_of_mem _ htake
        rw [hid]
        cases hdec : decide (r.user_id = userId) <;> rfl

structure Source where
  title : Str
  url : Str
  deriving DecidableEq, Repr

structure SourceD where
  title : Str
  url : Str
  domain : Str
  deriving DecidableEq, Repr

/-- Result of `validateSources`: the valid/invalid partition of a candidate
list.  URL liveness probing is external, so validation is an oracle
function in this model. -/
structure Partition where
  valid : List Source
  invalid : List Source
  deriving DecidableEq, Repr

def dropLead (pre s : Str) : Str :=
  if pre.isPrefixOf s then s.drop pre.length else s

/-- Modelled from the spec: the Source `domain` is "derived from url's host,
stripped of leading www." (the implementing helper lives in
src/lib/agent.js, which is not among the provided sources). -/
def deriveDomain (url : Str) : Str :=
  dropLead "www.".data
    ((dropLead "https://".data (dropLead "http://".data url)).takeWhile
      (fun c => !(decide (c = '/'))))

/-- Modelled from the spec: `withDomains` maps {title, url} candidates to
{title, url, domain} (src/lib/agent.js is not among the provided sources). -/
def withDomains (l : List Source) : List SourceD :=
  l.map (fun s => { title := s.title, url := s.url, domain := deriveDomain s.url })

/-- Modelled from the spec: `formatSourcesMarkdown` renders a markdown
sources section labelled `**Sources:**` followed by one line per source
(src/lib/agent.js is not among the provided sources; the exact per-line
layout is immaterial, the label is what src/server.js manipulates). -/
def sourceLineMd (s : SourceD) : Str :=
  "\n- [".data ++ s.title ++ "](".data ++ s.url ++ ")".data

def formatSourcesMarkdown (l : List SourceD) : Str :=
  "**Sources:**".data ++ l.foldl (fun acc s => acc ++ sourceLineMd s) []

/-- `String.prototype.replace` with a plain-string pattern: replace the
first occurrence of `pat` by `repl`. -/
def replaceFirst (pat repl : Str) : Str → Str
  | [] => if pat.isPrefixOf ([] : Str) then repl else []
  | c :: rest =>
    if pat.isPrefixOf (c :: rest) then repl ++ (c :: rest).drop pat.length
    else c :: replaceFirst pat repl rest

/-- src/server.js line 814-818: use the generated sources when non-empty,
otherwise the sources extracted from grounding metadata. -/
def rawFrom (gathered grounding : List Source) : List Source :=
  if gathered = [] then grounding else gathered

/-- src/server.js line 844: `invalid.length > 0 || valid.length < 3`. -/
def repairTriggered (p : Partition) : Bool :=
  decide (0 < p.invalid.length) || decide (p.valid.length < 3)

structure PipelineOut where
  rawSources : List Source
  repairedSources : List Source
  validFinal : List Source
  invalidFinal : List Source
  repairCalls : Nat
  sources : List SourceD
  markdown : Str
  unverified : Bool
  basis : Str
  deriving Repr

/-- src/server.js lines 876-900: final source selection from the
authoritative valid/invalid partition `p`, with the fallback chain
invalid → repaired → raw, the `**Sources (unverified):**` relabelling, and
the `(unavailable)` line. -/
def pipelineFinish (raw repairedSources : List Source) (repairCalls : Nat)
    (p : Partition) : PipelineOut :=
  if (withDomains p.valid).take 4 = [] then
    if (withDomains (if p.invalid = [] then
          (if repairedSources = [] then raw else repairedSources)
        else p.invalid)).take 4 = [] then
      { rawSources := raw, repairedSources := repairedSources,
        validFinal := p.valid, invalidFinal := p.invalid, repairCalls := repairCalls,
        sources := [], markdown := "**Sources:** (unavailable)".data,
        unverified := false, basis := "none".data }
    else
      { rawSources := raw, repairedSources := repairedSources,
        validFinal := p.valid, invalidFinal := p.invalid, repairCalls := repairCalls,
        sources := (withDomains (if p.invalid = [] then
          (if repairedSources = [] then raw else repairedSources)
        else p.invalid)).take 4,
        markdown := replaceFirst "**Sources:**".data "**Sources (unverified):**".data
          (formatSourcesMarkdown ((withDomains (if p.invalid = [] then
            (if repairedSources = [] then raw else repairedSources)
          else p.invalid)).take 4)),
        unverified := true,
        basis := if p.invalid = [] then
            (if repairedSources = [] then "raw".data else "repaired".data)
          else "invalid".data }
  else
    { rawSources := raw, repairedSources := repairedSources,
      validFinal := p.valid, invalidFinal := p.invalid, repairCalls := repairCalls,
      sources := (withDomains p.valid).take 4,
      markdown := formatSourcesMarkdown ((withDomains p.valid).take 4),
      unverified := false, basis := "valid".data }

/-- src/server.js lines 820-900: the citation pipeline.  `validate` models
`validateSources` (the same probe-backed function runs in both passes),
`repairedOracle` the list returned by `repairSources`, `gathered` the list
returned by `generateSourcesForResult`, `grounding` the list extracted from
grounding metadata. -/
def runCitationPipeline (validate : List Source → Partition)
    (repairedOracle gathered grounding : List Source) : PipelineOut :=
  if repairTriggered (validate (rawFrom gathered grounding)) then
    pipelineFinish (rawFrom gathered grounding) repairedOracle 1 (validate repairedOracle)
  else
    pipelineFinish (rawFrom gathered grounding) [] 0 (validate (rawFrom gathered grounding))

theorem withDomains_take_eq_nil_iff (l : List Source) :
    (withDomains l).take 4 = [] ↔ l = [] := by
  constructor
  · intro h
    have := congrArg List.length h
    rw [List.length_take, List.length_nil] at this
    have hlen : (withDomains l).length = l.length := List.length_map _ _
    rcases l with _ | ⟨x, xs⟩
    · rfl
    · exfalso
      rw [hlen] at this
      simp at this
  · intro h
    rw [h]
    rfl

theorem isPrefixOf_append_self (a b : Str) : a.isPrefixOf (a ++ b) = true := by
  induction a with
  | nil => simp [List.isPrefixOf]
  | cons c a' ih => simp [List.isPrefixOf, ih]

theorem drop_len_append (a b : Str) : (a ++ b).drop a.length = b := by
  induction a with
  | nil => rfl
  | cons c a' ih => simp only [List.cons_append, List.length_cons, List.drop_succ_cons, ih]

theorem replaceFirst_of_pref (pat repl s : Str) (h : pat.isPrefixOf s = true) :
    replaceFirst pat repl s = repl ++ s.drop pat.length := by
  cases s with
  | nil =>
    have : pat = [] := by
      cases pat with
      | nil => rfl
      | cons c cs => simp [List.isPrefixOf] at h
    subst this
    simp [replaceFirst]
  | cons c rest => simp [replaceFirst, h]

theorem replaceFirst_append (pat repl t : Str) :
    replaceFirst pat repl (pat ++ t) = repl ++ t := by
  rw [replaceFirst_of_pref pat repl _ (isPrefixOf_append_self pat t), drop_len_append]

theorem sourcesLabel_isPrefix (l : List SourceD) :
    "**Sources:**".data.isPrefixOf (formatSourcesMarkdown l) = true :=
  isPrefixOf_append_self _ _

theorem unverifiedLabel_isPrefix (l : List SourceD) :
    "**Sources (unverified):**".data.isPrefixOf
      (replaceFirst "**Sources:**".data "**Sources (unverified):**".data
        (formatSourcesMarkdown l)) = true := by
  unfold formatSourcesMarkdown
  rw [replaceFirst_append]
  exact isPrefixOf_append_self _ _

theorem pipelineFinish_proj (raw rs : List Source) (rc : Nat) (p : Partition) :
    (pipelineFinish raw rs rc p).repairCalls = rc ∧
    (pipelineFinish raw rs rc p).validFinal = p.valid ∧
    (pipelineFinish raw rs rc p).invalidFinal = p.invalid ∧
    (pipelineFinish raw rs rc p).repairedSources = rs ∧
    (pipelineFinish raw rs rc p).rawSources = raw := by
  unfold pipelineFinish
  split_ifs <;> exact ⟨rfl, rfl, rfl, rfl, rfl⟩

theorem pipelineFinish_sources_len (raw rs : List Source) (rc : Nat) (p : Partition) :
    (pipelineFinish raw rs rc p).sources.length ≤ 4 := by
  unfold pipelineFinish
  split_ifs <;> simp [List.length_take]

theorem pipelineFinish_valid (raw rs : List Source) (rc : Nat) (p : Partition)
    (h : p.valid ≠ []) :
    (pipelineFinish raw rs rc p).sources = (withDomains p.valid).take 4 ∧
    (pipelineFinish raw rs rc p).markdown =
      formatSourcesMarkdown ((withDomains p.valid).take 4) ∧
    (pipelineFinish raw rs rc p).unverified = false := by
  unfold pipelineFinish
  rw [if_neg fun hc => h ((withDomains_take_eq_nil_iff _).mp hc)]
  exact ⟨rfl, rfl, rfl⟩

theorem pipelineFinish_fallback (raw rs : List Source) (rc : Nat) (p : Partition)
    (hv : p.valid = [])
    (hfb : (if p.invalid = [] then (if rs = [] then raw else rs) else p.invalid) ≠ []) :
    (pipelineFinish raw rs rc p).sources =
      (withDomains (if p.invalid = [] then (if rs = [] then raw else rs)
        else p.invalid)).take 4 ∧
    (pipelineFinish raw rs rc p).markdown =
      replaceFirst "**Sources:**".data "**Sources (unverified):**".data
        (formatSourcesMarkdown ((withDomains (if p.invalid = [] then
          (if rs = [] then raw else rs) else p.invalid)).take 4)) ∧
    (pipelineFinish raw rs rc p).unverified = true := by
  unfold pipelineFinish
  rw [if_pos (by rw [hv]; rfl)]
  rw [if_neg fun hc => hfb ((withDomains_take_eq_nil_iff _).mp hc)]
  exact ⟨rfl, rfl, rfl⟩

theorem pipelineFinish_unavailable (raw rs : List Source) (rc : Nat) (p : Partition)
    (hv : p.valid = [])
    (hfb : (if p.invalid = [] then (if rs = [] then raw else rs) else p.invalid) = []) :
    (pipelineFinish raw rs rc p).sources = [] ∧
    (pipelineFinish raw rs rc p).markdown = "**Sources:** (unavailable)".data := by
  unfold pipelineFinish
  rw [if_pos (by rw [hv]; rfl)]
  rw [if_pos (by rw [hfb]; rfl)]
  exact ⟨rfl, rfl⟩

/-- C1: in the citation pipeline the repair path is invoked iff the first
validation pass yields an invalid source or fewer than 3 valid ones; it
runs at most once per turn; once triggered the second validation's
valid/invalid sets are the authoritative ones, and when post-repair valid
sources exist the displayed source list is drawn only from them (never from
the pre-repair invalid set). -/
theorem citationRepair_policy (validate : List Source → Partition)
    (repairedOracle gathered grounding : List Source) (out : PipelineOut)
    (hout : out = runCitationPipeline validate repairedOracle gathered grounding) :
    (out.repairCalls = 1 ↔
      repairTriggered (validate (rawFrom gathered grounding)) = true) ∧
    (repairTriggered (validate (rawFrom gathered grounding)) = true ↔
      (0 < (validate (rawFrom gathered grounding)).invalid.length ∨
        (validate (rawFrom gathered grounding)).valid.length < 3)) ∧
    out.repairCalls ≤ 1 ∧
    (repairTriggered (validate (rawFrom gathered grounding)) = true →
      out.validFinal = (validate repairedOracle).valid ∧
      out.invalidFinal = (validate repairedOracle).invalid ∧
      ((validate repairedOracle).valid ≠ [] →
        out.sources = (withDomains (validate repairedOracle).valid).take 4 ∧
        ∀ s ∈ out.sources, s ∈ withDomains (validate repairedOracle).valid)) := by
  have htriff : repairTriggered (validate (rawFrom gathered grounding)) = true ↔
      (0 < (validate (rawFrom gathered grounding)).invalid.length ∨
        (validate (rawFrom gathered grounding)).valid.length < 3) := by
    simp [repairTriggered]
  subst hout
  unfold runCitationPipeline
  by_cases htr : repairTriggered (validate (rawFrom gathered grounding)) = true
  · rw [if_pos htr]
    obtain ⟨hrc, hvf, hif, _, _⟩ :=
      pipelineFinish_proj (rawFrom gathered grounding) repairedOracle 1
        (validate repairedOracle)
    refine ⟨by rw [hrc]; simp [htr], htriff, by rw [hrc], fun _ => ⟨hvf, hif, ?_⟩⟩
    intro hvne
    obtain ⟨hs, _, _⟩ :=
      pipelineFinish_valid (rawFrom gathered grounding) repairedOracle 1
        (validate repairedOracle) hvne
    refine ⟨hs, fun s hsmem => ?_⟩
    rw [hs] at hsmem
    exact List.mem_of_mem_take hsmem
  · rw [if_neg htr]
    obtain ⟨hrc, _, _, _, _⟩ :=
      pipelineFinish_proj (rawFrom gathered grounding) [] 0
        (validate (rawFrom gathered grounding))
    exact ⟨by rw [hrc]; simp [htr], htriff, by rw [hrc]; omega,
      fun h => absurd h htr⟩

def srcA : Source := ⟨"A".data, "https://a.example/x".data⟩

def srcB : Source := ⟨"B".data, "https://b.example/y".data⟩

def srcC : Source := ⟨"C".data, "https://c.example/z".data⟩

def srcD : Source := ⟨"D".data, "https://d.example/w".data⟩

/-- An oracle validator that marks every candidate valid. -/
def vAll : List Source → Partition := fun l => ⟨l, []⟩

/-- An oracle validator that marks every candidate invalid. -/
def vNone : List Source → Partition := fun l => ⟨[], l⟩

theorem citationRepair_policy_witness :
    (runCitationPipeline vAll [srcB, srcC, srcD] [srcA] []).repairCalls = 1 ∧
    (runCitationPipeline vAll [srcB, srcC, srcD] [srcA] []).sources =
      (withDomains (vAll [srcB, srcC, srcD]).valid).take 4 := by
  have h := citationRepair_policy vAll [srcB, srcC, srcD] [srcA] [] _ rfl
  refine ⟨h.1.mpr (by decide), ?_⟩
  exact ((h.2.2.2 (by decide)).2.2 (by decide)).1

theorem pipelineFinish_full (raw rs : List Source) (rc : Nat) (p : Partition) :
    (pipelineFinish raw rs rc p).sources.length ≤ 4 ∧
    ((pipelineFinish raw rs rc p).validFinal ≠ [] →
      (pipelineFinish raw rs rc p).sources =
        (withDomains (pipelineFinish raw rs rc p).validFinal).take 4 ∧
      (pipelineFinish raw rs rc p).markdown =
        formatSourcesMarkdown (pipelineFinish raw rs rc p).sources ∧
      (pipelineFinish raw rs rc p).unverified = false ∧
      "**Sources:**".data.isPrefixOf (pipelineFinish raw rs rc p).markdown = true) ∧
    ((pipelineFinish raw rs rc p).validFinal = [] →
      (pipelineFinish raw rs rc p).invalidFinal ≠ [] →
      (pipelineFinish raw rs rc p).sources =
        (withDomains (pipelineFinish raw rs rc p).invalidFinal).take 4 ∧
      (pipelineFinish raw rs rc p).unverified = true ∧
      "**Sources (unverified):**".data.isPrefixOf
        (pipelineFinish raw rs rc p).markdown = true) ∧
    ((pipelineFinish raw rs rc p).validFinal = [] →
      (pipelineFinish raw rs rc p).invalidFinal = [] →
      (pipelineFinish raw rs rc p).repairedSources ≠ [] →
      (pipelineFinish raw rs rc p).sources =
        (withDomains (pipelineFinish raw rs rc p).repairedSources).take 4 ∧
      (pipelineFinish raw rs rc p).unverified = true ∧
      "**Sources (unverified):**".data.isPrefixOf
        (pipelineFinish raw rs rc p).markdown = true) ∧
    ((pipelineFinish raw rs rc p).validFinal = [] →
      (pipelineFinish raw rs rc p).invalidFinal = [] →
      (pipelineFinish raw rs rc p).repairedSources = [] →
      (pipelineFinish raw rs rc p).rawSources ≠ [] →
      (pipelineFinish raw rs rc p).sources =
        (withDomains (pipelineFinish raw rs rc p).rawSources).take 4 ∧
      (pipelineFinish raw rs rc p).unverified = true ∧
      "**Sources (unverified):**".data.isPrefixOf
        (pipelineFinish raw rs rc p).markdown = true) ∧
    ((pipelineFinish raw rs rc p).validFinal = [] →
      (pipelineFinish raw rs rc p).invalidFinal = [] →
      (pipelineFinish raw rs rc p).repairedSources = [] →
      (pipelineFinish raw rs rc p).rawSources = [] →
      (pipelineFinish raw rs rc p).sources = [] ∧
      (pipelineFinish raw rs rc p).markdown = "**Sources:** (unavailable)".data) := by
  obtain ⟨hrc, hvf, hif, hrs, hraw⟩ := pipelineFinish_proj raw rs rc p
  rw [hvf, hif, hrs, hraw]
  refine ⟨pipelineFinish_sources_len raw rs rc p, ?_, ?_, ?_, ?_, ?_⟩
  · intro h
    obtain ⟨hs, hmd, hu⟩ := pipelineFinish_valid raw rs rc p h
    exact ⟨hs, by rw [hmd, hs], hu, by rw [hmd]; exact sourcesLabel_isPrefix _⟩
  · intro hv hinv
    have hfbeq : (if p.invalid = [] then (if rs = [] then raw else rs)
        else p.invalid) = p.invalid := if_neg hinv
    obtain ⟨hs, hmd, hu⟩ :=
      pipelineFinish_fallback raw rs rc p hv (by rw [hfbeq]; exact hinv)
    rw [hfbeq] at hs hmd
    exact ⟨hs, hu, by rw [hmd]; exact unverifiedLabel_isPrefix _⟩
  · intro hv hinv hrsne
    have hfbeq : (if p.invalid = [] then (if rs = [] then raw else rs)
        else p.invalid) = rs := by rw [if_pos hinv, if_neg hrsne]
    obtain ⟨hs, hmd, hu⟩ :=
      pipelineFinish_fallback raw rs rc p hv (by rw [hfbeq]; exact hrsne)
    rw [hfbeq] at hs hmd
    exact ⟨hs, hu, by rw [hmd]; exact unverifiedLabel_isPrefix _⟩
  · intro hv hinv hrse hrawne
    have hfbeq : (if p.invalid = [] then (if rs = [] then raw else rs)
        else p.invalid) = raw := by rw [if_pos hinv, if_pos hrse]
    obtain ⟨hs, hmd, hu⟩ :=
      pipelineFinish_fallback raw rs rc p hv (by rw [hfbeq]; exact hrawne)
    rw [hfbeq] at hs hmd
    exact ⟨hs, hu, by rw [hmd]; exact unverifiedLabel_isPrefix _⟩
  · intro hv hinv hrse hrawe
    exact pipelineFinish_unavailable raw rs rc p hv
      (by rw [if_pos hinv, if_pos hrse]; exact hrawe)

/-- C4: final selection takes up to 4 valid sources in validation order;
with zero valid sources the fallback list is the invalid set, else the
repaired-but-unvalidated list, else the original raw candidates, rendered
under the `**Sources (unverified):**` label instead of `**Sources:**`; with
an empty fallback the rendered line is `**Sources:** (unavailable)`. -/
theorem sourceSelection_policy (validate : List Source → Partition)
    (repairedOracle gathered grounding : List Source) (out : PipelineOut)
    (hout : out = runCitationPipeline validate repairedOracle gathered grounding) :
    out.sources.length ≤ 4 ∧
    (out.validFinal ≠ [] →
      out.sources = (withDomains out.validFinal).take 4 ∧
      out.markdown = formatSourcesMarkdown out.sources ∧
      out.unverified = false ∧
      "**Sources:**".data.isPrefixOf out.markdown = true) ∧
    (out.validFinal = [] → out.invalidFinal ≠ [] →
      out.sources = (withDomains out.invalidFinal).take 4 ∧
      out.unverified = true ∧
      "**Sources (unverified):**".data.isPrefixOf out.markdown = true) ∧
    (out.validFinal = [] → out.invalidFinal = [] → out.repairedSources ≠ [] →
      out.sources = (withDomains out.repairedSources).take 4 ∧
      out.unverified = true ∧
      "**Sources (unverified):**".data.isPrefixOf out.markdown = true) ∧
    (out.validFinal = [] → out.invalidFinal = [] → out.repairedSources = [] →
      out.rawSources ≠ [] →
      out.sources = (withDomains out.rawSources).take 4 ∧
      out.unverified = true ∧
      "**Sources (unverified):**".data.isPrefixOf out.markdown = true) ∧
    (out.validFinal = [] → out.invalidFinal = [] → out.repairedSources = [] →
      out.rawSources = [] →
      out.sources = [] ∧ out.markdown = "**Sources:** (unavailable)".data) := by
  subst hout
  unfold runCitationPipeline
  by_cases htr : repairTriggered (validate (rawFrom gathered grounding)) = true
  · rw [if_pos htr]
    exact pipelineFinish_full _ _ _ _
  · rw [if_neg htr]
    exact pipelineFinish_full _ _ _ _

theorem sourceSelection_policy_witness :
    (runCitationPipeline vNone [srcB] [srcA] []).sources =
      (withDomains ((runCitationPipeline vNone [srcB] [srcA] []).invalidFinal)).take 4 ∧
    (runCitationPipeline vNone [srcB] [srcA] []).unverified = true := by
  have h := (sourceSelection_policy vNone [srcB] [srcA] [] _ rfl).2.2.1
    (by decide) (by decide)
  exact ⟨h.1, h.2.1⟩

/-- The turn kind assigned by src/server.js (`effectiveMode`, becoming the
trace entry's `kind`). -/
inductive EMode
  | plan
  | result
  | apology
  deriving DecidableEq, Repr

inductive AAction
  | keep
  | replan
  deriving DecidableEq, Repr

/-- The parsed classifier verdict JSON (src/server.js lines 518-530):
`action` is the `action` field when it is a string, `none` when absent or
non-string. -/
structure AssessBlock where
  action : Option Str
  deriving DecidableEq, Repr

/-- The parsed plan-mode JSON block (src/server.js lines 560-626), reduced
to the fields the orchestration reads: `apology`/`plan` are `some` exactly
when the JSON field is a string; `clarifying` holds the string entries of
`clarifying_questions` (the code drops non-string entries before the blank
filter, which the model applies in `planBranch` as the code does). -/
structure PlanBlock where
  apology : Option Str
  plan : Option Str
  clarifying : List Str
  deriving DecidableEq, Repr

/-- The a-priori outcome of all external calls a single turn can make.
`assessParse` models `JSON.parse(extractJsonBlock(assessPlanChange(...)))`
(`none` on a missing block or parse failure); `planParse` likewise for the
plan generation call; `resultCleaned` models the result generation's text
after activity-block removal and `stripSourcesSection`; the remaining
fields feed the citation pipeline as in `runCitationPipeline`. -/
structure TurnOracle where
  assessParse : Option AssessBlock
  planParse : Option PlanBlock
  resultCleaned : Str
  generatedSources : List Source
  groundingSources : List Source
  validate : List Source → Partition
  repaired : List Source

/-- The per-turn outcome of src/server.js `app.post /api/chat`: the returned
`turnResult` fields the persistence step reads, plus instrumentation
counting the generation calls each path performs (`planGenCalls` counts
plan-mode `streamMarketResponse` calls, `resultGenCalls` result-mode ones,
`assessCalls` classifier calls, `repairCalls` `repairSources` calls) and
`emptyShort` marking the empty-input short circuit. -/
structure TurnOut where
  response : Str
  sources : List SourceD
  em : EMode
  emptyShort : Bool
  skipPlanPersist : Bool
  planText : Str
  planQuestions : List Str
  assessCalls : Nat
  planGenCalls : Nat
  resultGenCalls : Nat
  repairCalls : Nat
  sourcesMarkdown : Str

/-- The fixed apology text of src/server.js (lines 433-434 and 628-629). -/
def fixedApology : Str :=
  "Sorry — I only cover software and technology markets. Share a category like CRM software and I’ll build a plan.".data

/-- JavaScript truthiness of a nullable string column. -/
def optTruthy : Option Str → Bool
  | some s => !(decide (s = []))
  | none => false

/-- src/server.js lines 427-430: a pending plan awaits clarification. -/
def hasPendingPlan (sess : SessionRow) : Bool :=
  decide (sess.phase = Phase.plan) &&
  decide (sess.plan_status = some PlanStatus.awaitingClarification) &&
  optTruthy sess.plan_text

/-- src/server.js lines 525-526: `parsedAssessment?.action === "replan" ?
"replan" : "keep"` — any parse failure or other action value is `keep`. -/
def assessAction : Option AssessBlock → AAction
  | some b => if b.action = some "replan".data then AAction.replan else AAction.keep
  | none => AAction.keep

/-- Run of pending newline characters at the head, emitted by
`collapseGo`. -/
def emitNl (n : Nat) : Str :=
  if 3 ≤ n then ['\n', '\n'] else List.replicate n '\n'

def collapseGo : Nat → Str → Str
  | pending, [] => emitNl pending
  | pending, c :: rest =>
    if c = '\n' then collapseGo (pending + 1) rest
    else emitNl pending ++ c :: collapseGo 0 rest

/-- src/server.js line 619: `planText.replace(/\n{3,}/g, "\n\n")`. -/
def collapseNewlines (s : Str) : Str := collapseGo 0 s

/-- `String.prototype.includes`. -/
def containsSub (pat : Str) : Str → Bool
  | [] => pat.isPrefixOf ([] : Str)
  | c :: rest => pat.isPrefixOf (c :: rest) || containsSub pat rest

/-- The out-of-domain refusal marker tested in src/server.js line 760. -/
def refusalMarker : Str := "only cover software and technology markets".data

/-- The empty-input short circuit, src/server.js lines 432-474: fixed
apology, no generation/classifier/repair call, trace entry marked plan. -/
def emptyTurnOut : TurnOut :=
  { response := fixedApology, sources := [], em := EMode.plan, emptyShort := true,
    skipPlanPersist := false, planText := [], planQuestions := [],
    assessCalls := 0, planGenCalls := 0, resultGenCalls := 0, repairCalls := 0,
    sourcesMarkdown := [] }

/-- src/server.js lines 537-702: the plan-mode branch (one plan generation
call; apology when the parsed block carries an apology or lacks plan text
or a first clarifying question). -/
def planBranch (o : TurnOracle) (assessCallsN : Nat) : TurnOut :=
  if trimChars ((o.planParse.bind PlanBlock.apology).getD []) = [] then
    if collapseNewlines (trimChars ((o.planParse.bind PlanBlock.plan).getD [])) = [] ∨
        ((o.planParse.map PlanBlock.clarifying).getD []).filter
          (fun q => !(decide (trimChars q = []))) = [] then
      { response := fixedApology, sources := [], em := EMode.apology,
        emptyShort := false, skipPlanPersist := true, planText := [],
        planQuestions := [], assessCalls := assessCallsN, planGenCalls := 1,
        resultGenCalls := 0, repairCalls := 0, sourcesMarkdown := [] }
    else
      { response := "### Plan\n".data ++
          collapseNewlines (trimChars ((o.planParse.bind PlanBlock.plan).getD [])) ++
          "\n\n**".data ++
          (((o.planParse.map PlanBlock.clarifying).getD []).filter
            (fun q => !(decide (trimChars q = [])))).headD [] ++ "**".data,
        sources := [], em := EMode.plan, emptyShort := false,
        skipPlanPersist := false,
        planText := collapseNewlines (trimChars ((o.planParse.bind PlanBlock.plan).getD [])),
        planQuestions := ((o.planParse.map PlanBlock.clarifying).getD []).filter
          (fun q => !(decide (trimChars q = []))),
        assessCalls := assessCallsN, planGenCalls := 1, resultGenCalls := 0,
        repairCalls := 0, sourcesMarkdown := [] }
  else
    { response := trimChars ((o.planParse.bind PlanBlock.apology).getD []),
      sources := [], em := EMode.apology, emptyShort := false,
      skipPlanPersist := true, planText := [], planQuestions := [],
      assessCalls := assessCallsN, planGenCalls := 1, resultGenCalls := 0,
      repairCalls := 0, sourcesMarkdown := [] }

/-- src/server.js lines 704-956: the result-mode branch (one result
generation call; apology short circuit on the refusal marker, otherwise the
citation pipeline). -/
def resultBranch (sess : SessionRow) (o : TurnOracle) (assessCallsN : Nat) : TurnOut :=
  if containsSub refusalMarker (lowerChars o.resultCleaned) ||
      "sorry".data.isPrefixOf (lowerChars o.resultCleaned) then
    { response := o.resultCleaned, sources := [], em := EMode.apology,
      emptyShort := false, skipPlanPersist := true,
      planText := if optTruthy sess.plan_text then sess.plan_text.getD [] else [],
      planQuestions := [], assessCalls := assessCallsN, planGenCalls := 0,
      resultGenCalls := 1, repairCalls := 0, sourcesMarkdown := [] }
  else
    { response := o.resultCleaned ++ "\n\n".data ++
        (runCitationPipeline o.validate o.repaired o.generatedSources
          o.groundingSources).markdown,
      sources := (runCitationPipeline o.validate o.repaired o.generatedSources
        o.groundingSources).sources,
      em := EMode.result, emptyShort := false, skipPlanPersist := false,
      planText := if optTruthy sess.plan_text then sess.plan_text.getD [] else [],
      planQuestions := [], assessCalls := assessCallsN, planGenCalls := 0,
      resultGenCalls := 1,
      repairCalls := (runCitationPipeline o.validate o.repaired o.generatedSources
        o.groundingSources).repairCalls,
      sourcesMarkdown := (runCitationPipeline o.validate o.repaired o.generatedSources
        o.groundingSources).markdown }

/-- src/server.js `app.post /api/chat`, lines 424-963: one processed turn as
a function of the loaded session row, the oracle and the message.  An empty
trimmed message short-circuits; otherwise in plan phase with a pending plan
the classifier runs and a `keep` verdict flips the effective mode to
result; the plan branch runs iff the initial and effective mode are both
plan. -/
def processTurn (sess : SessionRow) (o : TurnOracle) (message : Str) : TurnOut :=
  if trimChars message = [] then emptyTurnOut
  else
    if decide (sess.phase ≠ Phase.result) &&
        (!(hasPendingPlan sess) || decide (assessAction o.assessParse = AAction.replan)) then
      planBranch o (if hasPendingPlan sess then 1 else 0)
    else
      resultBranch sess o (if decide (sess.phase ≠ Phase.result) && hasPendingPlan sess then 1 else 0)

/-- `turnResult.planText || session.plan_text || null` of src/server.js
line 1052. -/
def jsOrText (a : Str) (b : Option Str) : Option Str :=
  if a = [] then
    (match b with
     | some s => if s = [] then none else some s
     | none => none)
  else some a

/-- src/server.js lines 438-470 (empty-input persistence: history, trace and
turn count only) and 1014-1059 (the common persistence step): history
append, turn-count increment, and the branch over result / skipPlanPersist
/ plan for the status, phase and plan columns. -/
def turnPersist (sess : SessionRow) (message : Str) (t : TurnOut) : SessionRow :=
  if t.emptyShort then
    { sess with
      turn_count := sess.turn_count + 1,
      chat_history := sess.chat_history ++
        [⟨Role.user, message⟩, ⟨Role.assistant, t.response⟩] }
  else if t.em = EMode.result then
    { sess with
      turn_count := sess.turn_count + 1,
      chat_history := sess.chat_history ++
        [⟨Role.user, message⟩, ⟨Role.assistant, t.response⟩],
      status := SStatus.complete, phase := Phase.result,
      plan_status := some PlanStatus.executed }
  else if t.skipPlanPersist then
    { sess with
      turn_count := sess.turn_count + 1,
      chat_history := sess.chat_history ++
        [⟨Role.user, message⟩, ⟨Role.assistant, t.response⟩],
      phase := Phase.plan, plan_text := none, plan_questions := none,
      plan_status := none }
  else
    { sess with
      turn_count := sess.turn_count + 1,
      chat_history := sess.chat_history ++
        [⟨Role.user, message⟩, ⟨Role.assistant, t.response⟩],
      phase := Phase.plan,
      plan_text := jsOrText t.planText sess.plan_text,
      plan_questions := some t.planQuestions,
      plan_status := some PlanStatus.awaitingClarification }

theorem planBranch_calls (o : TurnOracle) (n : Nat) :
    (planBranch o n).assessCalls = n ∧ (planBranch o n).planGenCalls = 1 ∧
    (planBranch o n).resultGenCalls = 0 ∧ (planBranch o n).repairCalls = 0 := by
  unfold planBranch
  split_ifs <;> exact ⟨rfl, rfl, rfl, rfl⟩

theorem resultBranch_calls (sess : SessionRow) (o : TurnOracle) (n : Nat) :
    (resultBranch sess o n).assessCalls = n ∧ (resultBranch sess o n).planGenCalls = 0 ∧
    (resultBranch sess o n).resultGenCalls = 1 := by
  unfold resultBranch
  split_ifs <;> exact ⟨rfl, rfl, rfl⟩

/-- C6: an empty or whitespace-only message short-circuits to the fixed
apology with no generation, classifier or repair call, is still recorded as
a plan-kind entry appended to history/trace, still increments the turn
count, and leaves status, phase and plan fields untouched. -/
theorem emptyInput_shortCircuit (sess : SessionRow) (o : TurnOracle) (message : Str)
    (hmsg : trimChars message = []) :
    processTurn sess o message = emptyTurnOut ∧
    emptyTurnOut.response = fixedApology ∧
    emptyTurnOut.assessCalls = 0 ∧
    emptyTurnOut.planGenCalls = 0 ∧
    emptyTurnOut.resultGenCalls = 0 ∧
    emptyTurnOut.repairCalls = 0 ∧
    emptyTurnOut.em = EMode.plan ∧
    (turnPersist sess message (processTurn sess o message)).turn_count =
      sess.turn_count + 1 ∧
    (turnPersist sess message (processTurn sess o message)).chat_history =
      sess.chat_history ++ [⟨Role.user, message⟩, ⟨Role.assistant, fixedApology⟩] ∧
    (turnPersist sess message (processTurn sess o message)).status = sess.status ∧
    (turnPersist sess message (processTurn sess o message)).phase = sess.phase ∧
    (turnPersist sess message (processTurn sess o message)).plan_text = sess.plan_text ∧
    (turnPersist sess message (processTurn sess o message)).plan_status =
      sess.plan_status := by
  have hpt : processTurn sess o message = emptyTurnOut := by
    unfold processTurn
    rw [if_pos hmsg]
  rw [hpt]
  exact ⟨rfl, rfl, rfl, rfl, rfl, rfl, rfl, rfl, rfl, rfl, rfl, rfl, rfl⟩

/-- A concrete oracle whose classifier verdict parses to `keep`. -/
def oracleKeep : TurnOracle :=
  { assessParse := some ⟨some "keep".data⟩, planParse := none,
    resultCleaned := "Ranked result body.".data, generatedSources := [],
    groundingSources := [], validate := vAll, repaired := [] }

theorem emptyInput_shortCircuit_witness :
    processTurn rowC oracleKeep "   ".data = emptyTurnOut :=
  (emptyInput_shortCircuit rowC oracleKeep "   ".data (by decide)).1

/-- C3: with `plan_status = awaiting_clarification` and non-empty
`plan_text` in plan phase, the classifier runs once; a parsed `replan`
verdict re-runs plan generation (one plan-generation call, no result call),
while `keep` — the value assigned on any parse failure or unrecognized
action — flips the effective mode to result (one result-generation call,
no second plan-generation call). -/
theorem classifierVerdict_flow (sess : SessionRow) (o : TurnOracle) (message : Str)
    (pt : Str) (hmsg : trimChars message ≠ []) (hph : sess.phase = Phase.plan)
    (hps : sess.plan_status = some PlanStatus.awaitingClarification)
    (hpt : sess.plan_text = some pt) (hptne : pt ≠ []) :
    (processTurn sess o message).assessCalls = 1 ∧
    (assessAction o.assessParse = AAction.replan →
      (processTurn sess o message).planGenCalls = 1 ∧
      (processTurn sess o message).resultGenCalls = 0) ∧
    (assessAction o.assessParse = AAction.keep →
      (processTurn sess o message).planGenCalls = 0 ∧
      (processTurn sess o message).resultGenCalls = 1) ∧
    (o.assessParse = none → assessAction o.assessParse = AAction.keep) ∧
    (∀ b : AssessBlock, b.action ≠ some "replan".data →
      assessAction (some b) = AAction.keep) := by
  have hpend : hasPendingPlan sess = true := by
    simp [hasPendingPlan, hph, hps, hpt, optTruthy, hptne]
  by_cases hact : assessAction o.assessParse = AAction.replan
  · have hc : (decide (sess.phase ≠ Phase.result) &&
        (!(hasPendingPlan sess) ||
          decide (assessAction o.assessParse = AAction.replan))) = true := by
      simp [hph, hpend, hact]
    have hrun : processTurn sess o message = planBranch o 1 := by
      unfold processTurn
      rw [if_neg hmsg, if_pos hc, if_pos hpend]
    obtain ⟨ha, hp, hr, _⟩ := planBranch_calls o 1
    rw [hrun]
    refine ⟨ha, fun _ => ⟨hp, hr⟩, fun hk => ?_, fun h => by simp [assessAction, h],
      fun b hb => by simp [assessAction, hb]⟩
    rw [hk] at hact
    exact absurd hact (by decide)
  · have hk : assessAction o.assessParse = AAction.keep := by
      cases h : assessAction o.assessParse with
      | keep => rfl
      | replan => exact absurd h hact
    have hc : (decide (sess.phase ≠ Phase.result) &&
        (!(hasPendingPlan sess) ||
          decide (assessAction o.assessParse = AAction.replan))) = false := by
      simp [hpend, hact]
    have hn : (decide (sess.phase ≠ Phase.result) && hasPendingPlan sess) = true := by
      simp [hph, hpend]
    have hrun : processTurn sess o message = resultBranch sess o 1 := by
      unfold processTurn
      rw [if_neg hmsg, if_neg (by rw [hc]; simp), if_pos hn]
    obtain ⟨ha, hp, hr⟩ := resultBranch_calls sess o 1
    rw [hrun]
    refine ⟨ha, fun hrep => absurd hrep hact, fun _ => ⟨hp, hr⟩,
      fun h => by simp [assessAction, h], fun b hb => by simp [assessAction, hb]⟩

def sessPending : SessionRow :=
  { id := 7, user_id := 1, status := SStatus.active, phase := Phase.plan,
    turn_count := 2, chat_history := [], plan_text := some "Plan P".data,
    plan_questions := some ["Q1".data], plan_status := some PlanStatus.awaitingClarification,
    created_at := 5 }

theorem classifierVerdict_flow_witness :
    (processTurn sessPending oracleKeep "yes".data).planGenCalls = 0 ∧
    (processTurn sessPending oracleKeep "yes".data).resultGenCalls = 1 :=
  (classifierVerdict_flow sessPending oracleKeep "yes".data "Plan P".data
    (by decide) (by decide) (by decide) (by decide) (by decide)).2.2.1 (by decide)

/-- A concrete oracle: classifier verdict `keep`, result generation text an
out-of-domain refusal. -/
def apologyOracle : TurnOracle :=
  { assessParse := some ⟨some "keep".data⟩, planParse := none,
    resultCleaned := "Sorry — that is outside my scope.".data,
    generatedSources := [], groundingSources := [], validate := vAll,
    repaired := [] }

/-- C2 counterexample: a result-mode apology turn does not leave the
persisted plan fields unchanged — on a session holding a pending plan, the
turn resets `plan_text` (the `skipPlanPersist` branch of src/server.js
lines 1045-1049 nulls it). -/
theorem resultApology_planUnchanged_cex :
    (turnPersist sessPending "yes".data
      (processTurn sessPending apologyOracle "yes".data)).plan_text ≠
    sessPending.plan_text := by decide

/-- C2 (amended): a result-mode turn whose cleaned text carries the
out-of-domain refusal marker is treated as kind apology — the cleaned text
is emitted as-is with no sources — and the session's persisted plan fields
are reset to null (`plan_text`, `plan_questions`, `plan_status` cleared,
phase set back to plan), rather than left unchanged; status and the
turn-count increment behave as on any turn. -/
theorem resultApology_resetsPlan (sess : SessionRow) (o : TurnOracle) (message : Str)
    (hmsg : trimChars message ≠ [])
    (hmode : sess.phase = Phase.result ∨
      (hasPendingPlan sess = true ∧ assessAction o.assessParse = AAction.keep))
    (hmark : (containsSub refusalMarker (lowerChars o.resultCleaned) ||
      "sorry".data.isPrefixOf (lowerChars o.resultCleaned)) = true) :
    (processTurn sess o message).em = EMode.apology ∧
    (processTurn sess o message).response = o.resultCleaned ∧
    (processTurn sess o message).sources = [] ∧
    (processTurn sess o message).skipPlanPersist = true ∧
    (turnPersist sess message (processTurn sess o message)).plan_text = none ∧
    (turnPersist sess message (processTurn sess o message)).plan_questions = none ∧
    (turnPersist sess message (processTurn sess o message)).plan_status = none ∧
    (turnPersist sess message (processTurn sess o message)).phase = Phase.plan ∧
    (turnPersist sess message (processTurn sess o message)).status = sess.status ∧
    (turnPersist sess message (processTurn sess o message)).turn_count =
      sess.turn_count + 1 := by
  have hc : (decide (sess.phase ≠ Phase.result) &&
      (!(hasPendingPlan sess) ||
        decide (assessAction o.assessParse = AAction.replan))) = false := by
    rcases hmode with hr | ⟨hp, hk⟩
    · simp [hr]
    · simp [hp, hk]
  have hrun : processTurn sess o message =
      resultBranch sess o
        (if decide (sess.phase ≠ Phase.result) && hasPendingPlan sess then 1 else 0) := by
    unfold processTurn
    rw [if_neg hmsg, if_neg (by rw [hc]; simp)]
  have hres : resultBranch sess o
      (if decide (sess.phase ≠ Phase.result) && hasPendingPlan sess then 1 else 0) =
      { response := o.resultCleaned, sources := [], em := EMode.apology,
        emptyShort := false, skipPlanPersist := true,
        planText := if optTruthy sess.plan_text then sess.plan_text.getD [] else [],
        planQuestions := [],
        assessCalls :=
          if decide (sess.phase ≠ Phase.result) && hasPendingPlan sess then 1 else 0,
        planGenCalls := 0, resultGenCalls := 1, repairCalls := 0,
        sourcesMarkdown := [] } := by
    unfold resultBranch
    rw [if_pos hmark]
  rw [hrun, hres]
  exact ⟨rfl, rfl, rfl, rfl, rfl, rfl, rfl, rfl, rfl, rfl⟩

theorem resultApology_resetsPlan_witness :
    (processTurn sessPending apologyOracle "ok".data).em = EMode.apology ∧
    (turnPersist sessPending "ok".data
      (processTurn sessPending apologyOracle "ok".data)).plan_text = none := by
  have h := resultApology_resetsPlan sessPending apologyOracle "ok".data
    (by decide) (Or.inr ⟨by decide, by decide⟩) (by decide)
  exact ⟨h.1, h.2.2.2.2.1⟩

/-- C5: a result-producing turn updates the session to status = complete,
phase = result, plan_status = executed, increments the turn count, and
retention pruning keeps exactly the user's 50 newest sessions (membership
characterization of `pruneSessions` at keep = 50: a row survives iff it
belongs to another user or is among the 50 newest of this user; all older
rows of the user are deleted). -/
theorem resultTurn_persistence (sess : SessionRow) (message : Str) (t : TurnOut)
    (dbRows : List SessionRow) (u : Nat)
    (hres : t.em = EMode.result) (hne : t.emptyShort = false)
    (hnodup : (dbRows.map (fun r => r.id)).Nodup) :
    (turnPersist sess message t).status = SStatus.complete ∧
    (turnPersist sess message t).phase = Phase.result ∧
    (turnPersist sess message t).plan_status = some PlanStatus.executed ∧
    (turnPersist sess message t).turn_count = sess.turn_count + 1 ∧
    (∀ r, r ∈ pruneSessions dbRows u 50 ↔
      r ∈ dbRows ∧ (r.user_id ≠ u ∨
        r ∈ (sortByCreatedDesc (sessionsOfUser dbRows u)).take 50)) := by
  have ht : turnPersist sess message t =
      { sess with
        turn_count := sess.turn_count + 1,
        chat_history := sess.chat_history ++
          [⟨Role.user, message⟩, ⟨Role.assistant, t.response⟩],
        status := SStatus.complete, phase := Phase.result,
        plan_status := some PlanStatus.executed } := by
    unfold turnPersist
    rw [if_neg (by simp [hne]), if_pos hres]
  rw [ht]
  exact ⟨rfl, rfl, rfl, rfl,
    fun r => pruneSessions_mem_iff dbRows u 50 (by norm_num) hnodup r⟩

theorem resultTurn_persistence_witness :
    (turnPersist sessPending "yes".data
      (processTurn sessPending oracleKeep "yes".data)).status = SStatus.complete ∧
    (rowA ∈ pruneSessions [rowA, rowB, rowC] 1 50 ↔
      rowA ∈ [rowA, rowB, rowC] ∧ (rowA.user_id ≠ 1 ∨
        rowA ∈ (sortByCreatedDesc (sessionsOfUser [rowA, rowB, rowC] 1)).take 50)) := by
  have h := resultTurn_persistence sessPending "yes".data
    (processTurn sessPending oracleKeep "yes".data) [rowA, rowB, rowC] 1
    (by decide) (by decide) (by decide)
  exact ⟨h.1, h.2.2.2.2 rowA⟩

theorem turnPersist_id (sess : SessionRow) (message : Str) (t : TurnOut) :
    (turnPersist sess message t).id = sess.id := by
  unfold turnPersist
  split_ifs <;> rfl

theorem turnPersist_user (sess : SessionRow) (message : Str) (t : TurnOut) :
    (turnPersist sess message t).user_id = sess.user_id := by
  unfold turnPersist
  split_ifs <;> rfl

theorem turnPersist_status (sess : SessionRow) (message : Str) (t : TurnOut) :
    (turnPersist sess message t).status =
      (if t.emptyShort = false ∧ t.em = EMode.result then SStatus.complete
       else sess.status) := by
  unfold turnPersist
  split_ifs with h1 h2 h3 <;> simp_all

theorem length_filter_map_le {α : Type} (g : α → α) (p : α → Bool) :
    ∀ l : List α, (∀ a ∈ l, p (g a) = true → p a = true) →
      ((l.map g).filter p).length ≤ (l.filter p).length := by
  intro l
  induction l with
  | nil => intro _; exact Nat.le_refl _
  | cons x xs ih =>
    intro h
    have hxs := ih fun a ha => h a (by simp [ha])
    simp only [List.map_cons, List.filter_cons]
    by_cases hx : p (g x) = true
    · have hpx := h x (by simp) hx
      simp only [hx, hpx, if_true]
      simpa using hxs
    · have hx' : p (g x) = false := eq_false_of_ne_true hx
      simp only [hx', Bool.false_eq_true, if_false]
      by_cases hpx : p x = true
      · simp only [hpx, if_true, List.length_cons]
        omega
      · have hpx' : p x = false := eq_false_of_ne_true hpx
        simp only [hpx', Bool.false_eq_true, if_false]
        exact hxs

theorem map_eq_self_of {α : Type} (g : α → α) :
    ∀ l : List α, (∀ a ∈ l, g a = a) → l.map g = l := by
  intro l
  induction l with
  | nil => intro _; rfl
  | cons x xs ih =>
    intro h
    simp only [List.map_cons, h x (by simp), ih fun a ha => h a (by simp [ha])]

/-- src/lib/db.js `getActiveSessionForUser`
(`... WHERE user_id = ? AND status = 'active' ORDER BY created_at DESC
LIMIT 1`): one active row of the user, or none.  Under the at-most-one-
active invariant which active row is returned is immaterial; the model
takes the first match. -/
def getActiveFor (dbRows : List SessionRow) (u : Nat) : Option SessionRow :=
  dbRows.find? (fun r => decide (r.user_id = u) && decide (r.status = SStatus.active))

/-- src/server.js lines 383-421: the freshly created session row. -/
def freshSession (fid u now : Nat) : SessionRow :=
  { id := fid, user_id := u, status := SStatus.active, phase := Phase.plan,
    turn_count := 0, chat_history := [], plan_text := none, plan_questions := none,
    plan_status := none, created_at := now }

/-- src/lib/db.js `updateSession`: replace the row with the given id. -/
def replaceById (dbRows : List SessionRow) (sid : Nat) (s' : SessionRow) :
    List SessionRow :=
  dbRows.map (fun r => if r.id = sid then s' else r)

/-- One full `/api/chat` request for user `u` against the sessions table:
load the active session or create a fresh one (src/server.js lines
381-422), process the turn, and persist the updated row. -/
def chatStep (dbRows : List SessionRow) (u fid now : Nat) (o : TurnOracle)
    (message : Str) : List SessionRow :=
  match getActiveFor dbRows u with
  | some s => replaceById dbRows s.id (turnPersist s message (processTurn s o message))
  | none =>
    replaceById (freshSession fid u now :: dbRows) fid
      (turnPersist (freshSession fid u now) message
        (processTurn (freshSession fid u now) o message))

def activeCount (dbRows : List SessionRow) (u : Nat) : Nat :=
  (dbRows.filter
    (fun r => decide (r.user_id = u) && decide (r.status = SStatus.active))).length

theorem rows_id_inj (dbRows : List SessionRow)
    (hnodup : (dbRows.map (fun r => r.id)).Nodup) {r r' : SessionRow}
    (hr : r ∈ dbRows) (hr' : r' ∈ dbRows) (h : r.id = r'.id) : r = r' :=
  List.inj_on_of_nodup_map hnodup hr hr' h

/-- C7: per user at most one active session exists after a chat step if at
most one existed before; a completed session never reverts (its status stays
complete through every step); a new session row is created exactly when no
active session exists for the user; and the loaded active session's status
after the step is complete precisely when the turn produced a result. -/
theorem sessionLifecycle_invariant (dbRows : List SessionRow) (u fid now : Nat)
    (o : TurnOracle) (message : Str)
    (hfresh : fid ∉ dbRows.map (fun r => r.id))
    (hnodup : (dbRows.map (fun r => r.id)).Nodup)
    (hinv : ∀ v, activeCount dbRows v ≤ 1) :
    (∀ v, activeCount (chatStep dbRows u fid now o message) v ≤ 1) ∧
    (∀ r ∈ dbRows, r.status = SStatus.complete →
      ∀ r' ∈ chatStep dbRows u fid now o message, r'.id = r.id →
        r'.status = SStatus.complete) ∧
    ((chatStep dbRows u fid now o message).length =
      dbRows.length + (if getActiveFor dbRows u = none then 1 else 0)) ∧
    (∀ s, getActiveFor dbRows u = some s →
      ∀ r' ∈ chatStep dbRows u fid now o message, r'.id = s.id →
        r'.status =
          (if (processTurn s o message).emptyShort = false ∧
              (processTurn s o message).em = EMode.result then SStatus.complete
           else SStatus.active)) := by
  cases hact : getActiveFor dbRows u with
  | some s =>
    have hmem : s ∈ dbRows := List.mem_of_find?_eq_some hact
    obtain ⟨hsu, hsa⟩ : s.user_id = u ∧ s.status = SStatus.active := by
      simpa using List.find?_some hact
    have hgid : (turnPersist s message (processTurn s o message)).id = s.id :=
      turnPersist_id s message (processTurn s o message)
    have hguser : (turnPersist s message (processTurn s o message)).user_id =
        s.user_id := turnPersist_user s message (processTurn s o message)
    have hgstat := turnPersist_status s message (processTurn s o message)
    have hstep : chatStep dbRows u fid now o message =
        replaceById dbRows s.id (turnPersist s message (processTurn s o message)) := by
      unfold chatStep
      rw [hact]
    have hpoint : ∀ v, ∀ r ∈ dbRows,
        ((decide (((if r.id = s.id then
            turnPersist s message (processTurn s o message) else r)).user_id = v)) &&
          (decide (((if r.id = s.id then
            turnPersist s message (processTurn s o message) else r)).status =
              SStatus.active))) = true →
        ((decide (r.user_id = v)) && (decide (r.status = SStatus.active))) = true := by
      intro v r hr hpg
      by_cases hrid : r.id = s.id
      · have hrs : r = s := rows_id_inj dbRows hnodup hr hmem hrid
        subst hrs
        rw [if_pos hrid] at hpg
        obtain ⟨h1, h2⟩ :
            (turnPersist r message (processTurn r o message)).user_id = v ∧
            (turnPersist r message (processTurn r o message)).status =
              SStatus.active := by simpa using hpg
        have h3 : r.user_id = v := by
          rw [← turnPersist_user r message (processTurn r o message)]
          exact h1
        simp [h3, hsa]
      · rw [if_neg hrid] at hpg
        exact hpg
    refine ⟨?_, ?_, ?_, ?_⟩
    · intro v
      rw [hstep]
      unfold activeCount replaceById
      exact Nat.le_trans
        (length_filter_map_le _ _ dbRows (hpoint v)) (hinv v)
    · intro r hr hrc r' hr' hrid
      rw [hstep] at hr'
      unfold replaceById at hr'
      obtain ⟨r₀, hr₀, hr₀eq⟩ := List.mem_map.mp hr'
      by_cases h0 : r₀.id = s.id
      · rw [if_pos h0] at hr₀eq
        have hr'id : r'.id = s.id := by rw [← hr₀eq]; exact hgid
        have hrs : r = s := rows_id_inj dbRows hnodup hr hmem (by rw [← hrid, hr'id])
        rw [hrs, hsa] at hrc
        exact absurd hrc (by decide)
      · rw [if_neg h0] at hr₀eq
        have h1 : r₀ = r := rows_id_inj dbRows hnodup hr₀ hr (by rw [hr₀eq]; exact hrid)
        rw [← hr₀eq, h1]
        exact hrc
    · rw [hstep]
      unfold replaceById
      rw [List.length_map]
      simp [hact]
    · intro s₀ hs₀ r' hr' hrid
      have hse : s = s₀ := by injection hs₀
      subst hse
      rw [hstep] at hr'
      unfold replaceById at hr'
      obtain ⟨r₀, hr₀, hr₀eq⟩ := List.mem_map.mp hr'
      by_cases h0 : r₀.id = s.id
      · rw [if_pos h0] at hr₀eq
        rw [← hr₀eq, hgstat, hsa]
      · rw [if_neg h0] at hr₀eq
        exact absurd (by rw [hr₀eq]; exact hrid) h0
  | none =>
    have hnone : ∀ r ∈ dbRows,
        ¬(((decide (r.user_id = u)) && (decide (r.status = SStatus.active))) = true) := by
      unfold getActiveFor at hact
      exact List.find?_eq_none.mp hact
    have hfr : ∀ r ∈ dbRows, r.id ≠ fid := by
      intro r hr he
      exact hfresh (he ▸ List.mem_map_of_mem (fun r => r.id) hr)
    have hstep : chatStep dbRows u fid now o message =
        turnPersist (freshSession fid u now) message
          (processTurn (freshSession fid u now) o message) :: dbRows := by
      unfold chatStep
      rw [hact]
      unfold replaceById
      simp only [List.map_cons]
      have hfid : (freshSession fid u now).id = fid := rfl
      rw [if_pos hfid]
      congr 1
      exact map_eq_self_of _ dbRows fun a ha => if_neg (hfr a ha)
    have hguser : (turnPersist (freshSession fid u now) message
        (processTurn (freshSession fid u now) o message)).user_id = u := by
      rw [turnPersist_user]
      rfl
    have hgid : (turnPersist (freshSession fid u now) message
        (processTurn (freshSession fid u now) o message)).id = fid := by
      rw [turnPersist_id]
      rfl
    refine ⟨?_, ?_, ?_, ?_⟩
    · intro v
      rw [hstep]
      unfold activeCount
      rw [List.filter_cons]
      by_cases hv : v = u
      · subst hv
        have hzero : dbRows.filter
            (fun r => (decide (r.user_id = v)) && (decide (r.status = SStatus.active))) =
            [] := List.filter_eq_nil_iff.mpr hnone
        split_ifs <;> simp [hzero]
      · have hne : ¬((turnPersist (freshSession fid u now) message
            (processTurn (freshSession fid u now) o message)).user_id = v) := by
          rw [hguser]
          exact fun h => hv h.symm
        have hps : ((decide ((turnPersist (freshSession fid u now) message
            (processTurn (freshSession fid u now) o message)).user_id = v)) &&
            (decide ((turnPersist (freshSession fid u now) message
              (processTurn (freshSession fid u now) o message)).status =
                SStatus.active))) = false := by
          simp [hne]
        rw [hps]
        simp only [Bool.false_eq_true, if_false]
        exact hinv v
    · intro r hr hrc r' hr' hrid
      rw [hstep] at hr'
      rcases List.mem_cons.mp hr' with h | h
      · exfalso
        apply hfr r hr
        rw [← hrid, h]
        exact hgid
      · have h1 : r' = r := rows_id_inj dbRows hnodup h hr hrid
        rw [h1]
        exact hrc
    · rw [hstep]
      simp [hact]
    · intro s₀ hs₀
      exact absurd hs₀ (by simp)

theorem sessionLifecycle_invariant_witness :
    (chatStep ([] : List SessionRow) 1 5 0 oracleKeep "hi".data).length =
      ([] : List SessionRow).length +
        (if getActiveFor ([] : List SessionRow) 1 = none then 1 else 0) :=
  (sessionLifecycle_invariant ([] : List SessionRow) 1 5 0 oracleKeep "hi".data
    (by simp) (by simp) (fun v => by simp [activeCount])).2.2.1
